import Mathlib

/-!
Shallow embedding of the chunking-and-batched-ingestion pipeline of the
rag_chatbot repository (src/rag_chatbot/utils.py and
src/rag_chatbot/ingestion.py), together with theorems settling the
specification claims about it.

Modelling conventions:
* Python strings are Lean `String` (a list of unicode scalar values, which
  matches Python code points for every input in scope); slicing and
  `str.strip()` are written out over `String.data`.
* Python ints are `Int`, or `Nat` where the source value is provably
  non-negative.
* `hashlib.sha256(...).hexdigest()` is implemented in full, so identifier
  digests are computed, not assumed.
* The external embedding / index services are oracles `Nat → Except ε α`
  giving the outcome of each successive remote call; `time.sleep` delays
  are recorded as exact rationals.
* `while` loops are embedded with an explicit step counter (`fuel`).  For
  loops the source guarantees to stop (batching, block splitting) the
  counter is initialised with a provably sufficient bound, so the
  definitions compute; for `chunk_text`, whose termination is exactly what
  is at issue, the counter is exposed and `none` reports exhaustion.
-/

/-! ## Python string primitives -/

/-- Whitespace as recognised by Python `str.strip()` (ASCII range; the
inputs in scope contain no exotic unicode whitespace). -/
def pyWS (c : Char) : Bool :=
  c == ' ' || c == '\t' || c == '\n' || c == '\r' || c == '\x0b' || c == '\x0c'

/-- `str.strip()` on a list of characters: drop whitespace from the front,
then from the back. -/
def stripL (l : List Char) : List Char :=
  ((l.dropWhile pyWS).reverse.dropWhile pyWS).reverse

/-- Python `text.strip()`. -/
def pyStrip (s : String) : String := String.mk (stripL s.data)

/-- Python `text[a:b]` for `0 ≤ a ≤ b` (out-of-range indices clamp). -/
def pySlice (s : String) (a b : Nat) : String :=
  String.mk ((s.data.drop a).take (b - a))

/-- Python `str.lower()` restricted to ASCII letters (sufficient here: the
supported extension set is pure ASCII, and no non-ASCII character lowers
into it). -/
def pyLower (s : String) : String :=
  String.mk (s.data.map fun c =>
    if 'A' ≤ c && c ≤ 'Z' then Char.ofNat (c.toNat + 32) else c)

/-- `pathlib.PurePath.suffix` on a file name: the substring from the last
dot, provided that dot is neither the first nor the last character of the
name; otherwise the empty string. -/
def pySuffix (name : String) : String :=
  let cs := name.data
  match (cs.enum.filter fun p => p.2 == '.').getLast? with
  | none => ""
  | some p => if 0 < p.1 ∧ p.1 < cs.length - 1 then String.mk (cs.drop p.1) else ""

/-- UTF-8 encoding of one unicode scalar value (what `str.encode("utf-8")`
emits per code point; surrogates, the only thing `"ignore"` drops, cannot
occur in a Lean `Char`). -/
def utf8Char (c : Char) : List Nat :=
  let n := c.toNat
  if n < 128 then [n]
  else if n < 2048 then [192 + n / 64, 128 + n % 64]
  else if n < 65536 then [224 + n / 4096, 128 + n / 64 % 64, 128 + n % 64]
  else [240 + n / 262144, 128 + n / 4096 % 64, 128 + n / 64 % 64, 128 + n % 64]

/-- Python `s.encode("utf-8", "ignore")` as a byte list. -/
def utf8Bytes (s : String) : List Nat := (s.data.map utf8Char).flatten

/-! ## SHA-256 (`hashlib.sha256(...).hexdigest()`) -/

/-- Truncation to a 32-bit word. -/
def mask32 (n : Nat) : Nat := n % 4294967296

/-- Right rotation of a 32-bit word. -/
def rotr32 (n x : Nat) : Nat := x / 2 ^ n + x % 2 ^ n * 2 ^ (32 - n)

/-- Bitwise complement of a 32-bit word. -/
def not32 (x : Nat) : Nat := 4294967295 - x

def ssig0 (x : Nat) : Nat := rotr32 7 x ^^^ rotr32 18 x ^^^ x / 8

def ssig1 (x : Nat) : Nat := rotr32 17 x ^^^ rotr32 19 x ^^^ x / 1024

def bsig0 (x : Nat) : Nat := rotr32 2 x ^^^ rotr32 13 x ^^^ rotr32 22 x

def bsig1 (x : Nat) : Nat := rotr32 6 x ^^^ rotr32 11 x ^^^ rotr32 25 x

def chV (e f g : Nat) : Nat := (e &&& f) ^^^ (not32 e &&& g)

def majV (a b c : Nat) : Nat := (a &&& b) ^^^ (a &&& c) ^^^ (b &&& c)

/-- The SHA-256 round constants (FIPS 180-4 section 4.2.2, here written
in decimal). -/
def shaK : List Nat :=
  [1116352408, 1899447441, 3049323471, 3921009573, 961987163,
   1508970993, 2453635748, 2870763221, 3624381080, 310598401,
   607225278, 1426881987, 1925078388, 2162078206, 2614888103,
   3248222580, 3835390401, 4022224774, 264347078, 604807628,
   770255983, 1249150122, 1555081692, 1996064986, 2554220882,
   2821834349, 2952996808, 3210313671, 3336571891, 3584528711,
   113926993, 338241895, 666307205, 773529912, 1294757372,
   1396182291, 1695183700, 1986661051, 2177026350, 2456956037,
   2730485921, 2820302411, 3259730800, 3345764771, 3516065817,
   3600352804, 4094571909, 275423344, 430227734, 506948616,
   659060556, 883997877, 958139571, 1322822218, 1537002063,
   1747873779, 1955562222, 2024104815, 2227730452, 2361852424,
   2428436474, 2756734187, 3204031479, 3329325298]

/-- The SHA-256 initial hash state (FIPS 180-4 section 5.3.3, in
decimal). -/
def shaH0 : List Nat :=
  [1779033703, 3144134277, 1013904242, 2773480762,
   1359893119, 2600822924, 528734635, 1541459225]

/-- SHA-256 padding: append `0x80`, zeros to 56 mod 64, then the bit
length as eight big-endian bytes. -/
def padBytes (msg : List Nat) : List Nat :=
  let L := msg.length
  msg ++ 128 :: List.replicate ((120 - (L + 1) % 64) % 64) 0
      ++ ((List.range 8).map fun i => 8 * L / 256 ^ (7 - i) % 256)

/-- Big-endian 32-bit words from a byte list. -/
def bytesToWords : List Nat → List Nat
  | b0 :: b1 :: b2 :: b3 :: rest =>
      (((b0 * 256 + b1) * 256 + b2) * 256 + b3) :: bytesToWords rest
  | _ => []

/-- Split a byte list into 64-byte blocks (the step counter is initialised
with the list length, a bound on the number of blocks). -/
def blocksGo : Nat → List Nat → List (List Nat)
  | 0, _ => []
  | _ + 1, [] => []
  | fuel + 1, l => l.take 64 :: blocksGo fuel (l.drop 64)

def toBlocks (l : List Nat) : List (List Nat) := blocksGo l.length l

/-- Extend a 16-word message schedule by `n` further words. -/
def scheduleFrom (w : List Nat) : Nat → List Nat
  | 0 => w
  | n + 1 =>
    scheduleFrom
      (w ++ [mask32 (ssig1 (w.getD (w.length - 2) 0) + w.getD (w.length - 7) 0
        + ssig0 (w.getD (w.length - 15) 0) + w.getD (w.length - 16) 0)]) n

/-- One SHA-256 compression round; the state is the 8-word list
`[a, b, c, d, e, f, g, h]`. -/
def roundStep (st : List Nat) (kw : Nat × Nat) : List Nat :=
  match st with
  | [a, b, c, d, e, f, g, h] =>
    let t1 := mask32 (h + bsig1 e + chV e f g + kw.1 + kw.2)
    let t2 := mask32 (bsig0 a + majV a b c)
    [mask32 (t1 + t2), a, b, c, mask32 (d + t1), e, f, g]
  | _ => st

/-- Compress one 64-byte block into the running hash state. -/
def compressBlock (h : List Nat) (block : List Nat) : List Nat :=
  let w := scheduleFrom (bytesToWords block) 48
  let st := (shaK.zip w).foldl roundStep h
  (h.zip st).map fun p => mask32 (p.1 + p.2)

def sha256Words (msg : List Nat) : List Nat :=
  (toBlocks (padBytes msg)).foldl compressBlock shaH0

/-- Lowercase hexadecimal digit. -/
def hexChar (n : Nat) : Char :=
  if n < 10 then Char.ofNat (48 + n) else Char.ofNat (87 + n)

/-- Eight hex characters of one 32-bit word, most significant first. -/
def wordHex (x : Nat) : List Char :=
  (List.range 8).map fun i => hexChar (x / 16 ^ (7 - i) % 16)

/-- `hashlib.sha256(msg).hexdigest()`. -/
def sha256Hex (msg : List Nat) : String :=
  String.mk ((sha256Words msg).map wordHex).flatten

/-- Known-answer check: the FIPS 180 test vector for "abc". -/
theorem sha256Hex_known_vector :
    sha256Hex (utf8Bytes "abc")
      = "ba7816bf8f01cfea414140de5dae2223b00361a396177a9cb410ff61f20015ad" := by
  decide

/-! ## utils.py -/

/-- `SUPPORTED_EXTENSIONS` from utils.py. -/
def SUPPORTED_EXTENSIONS : List String := [".txt", ".md", ".markdown"]

/-- The per-file decision of `iter_text_files`:
`file.suffix.lower() in SUPPORTED_EXTENSIONS`. -/
def ingestibleFile (name : String) : Bool :=
  SUPPORTED_EXTENSIONS.contains (pyLower (pySuffix name))

/-- `iter_text_files` on the directory branch, modelled on the (already
sorted) list of file names under the root: it yields exactly the files
whose suffix passes `ingestibleFile`.  The filesystem walk itself
(`root.rglob`, existence check) is outside the embedding. -/
def iterTextFiles (files : List String) : List String :=
  files.filter ingestibleFile

/-- The cursor update of one `chunk_text` iteration:
`start = end - chunk_overlap`, clamped to `≥ 0`, and bumped by one when
`start == end` (the source's guard against a stalled cursor). -/
def chunkNext (text : String) (size overlap start : Int) : Int :=
  let e : Int := min (start + size) (text.length : Int)
  let s1 : Int := e - overlap
  let s2 : Int := if s1 < 0 then 0 else s1
  if s2 = e then s2 + 1 else s2

/-- The loop body of `chunk_text` from utils.py, with an explicit step
counter; `none` means the counter ran out before the loop ended, so
`(∀ fuel, ⋯ = none)` states non-termination.
Per iteration: `end = min(start + chunk_size, text_length)`;
`chunk = text[start:end].strip()`; non-empty chunks are appended; the
cursor advances by `chunkNext`. -/
def chunkTextLoop (text : String) (size overlap : Int) (start : Int) :
    Nat → Option (List String)
  | 0 => if start < (text.length : Int) then none else some []
  | fuel + 1 =>
    if start < (text.length : Int) then
      let e : Int := min (start + size) (text.length : Int)
      let chunk : String := pyStrip (pySlice text start.toNat e.toNat)
      match chunkTextLoop text size overlap (chunkNext text size overlap start) fuel with
      | none => none
      | some rest => some (if chunk = "" then rest else chunk :: rest)
    else some []

/-- `chunk_text` from utils.py.  `some (Except.error _)` is the
`ValueError` raised by validation, `some (Except.ok _)` a normal return,
`none` an exhausted step counter. -/
def chunkText (text : String) (size overlap : Int) (fuel : Nat) :
    Option (Except String (List String)) :=
  if size ≤ 0 then some (Except.error "chunk_size must be positive")
  else if overlap ≥ size then
    some (Except.error "chunk_overlap must be smaller than chunk_size")
  else (chunkTextLoop text size overlap 0 fuel).map Except.ok

/-- The loop body of `batched` from utils.py: slice up to `batch_size`
items; stop on an empty slice, else yield and continue.  The step counter
is initialised with the list length, which bounds the number of
iterations. -/
def batchedGo {α : Type} (B : Nat) : Nat → List α → List (List α)
  | 0, _ => []
  | fuel + 1, l =>
    let batch := l.take B
    if batch.isEmpty then [] else batch :: batchedGo B fuel (l.drop B)

/-- `batched` from utils.py. -/
def batched {α : Type} (l : List α) (B : Nat) : List (List α) :=
  batchedGo B l.length l

/-! ## ingestion.py -/

/-- The hash input of `_deterministic_id`:
`f"{source}\x1f{idx}\x1f{len(chunk_text)}"`. -/
def idMessage (source c : String) (idx : Nat) : String :=
  source ++ "\x1f" ++ toString idx ++ "\x1f" ++ toString c.length

/-- `_deterministic_id` from ingestion.py. -/
def deterministicId (source c : String) (idx : Nat) : String :=
  sha256Hex (utf8Bytes (idMessage source c idx))

/-- The delay `_sleep_backoff` sleeps on a given attempt:
`min(cap, base * 2 ** attempt)` with `base = 0.4`, `cap = 6.0`, as an
exact rational. -/
def sleepBackoff (attempt : Nat) : ℚ := min 6 (2 / 5 * 2 ^ attempt)

/-- The shared retry skeleton of `_embed_batch` and `_upsert_vectors`:
call the service; on success return; on failure count the attempt,
re-raise once `attempts > 5`, else sleep `_sleep_backoff(attempts)` and
retry.  `oracle i` is the outcome of call number `i` (0-based);
the result is paired with the list of backoff delays slept. -/
def retryFrom {ε α : Type} (oracle : Nat → Except ε α) (attempts : Nat) :
    Except ε α × List ℚ :=
  match oracle attempts with
  | Except.ok a => (Except.ok a, [])
  | Except.error e =>
    if attempts + 1 > 5 then (Except.error e, [])
    else
      let r := retryFrom oracle (attempts + 1)
      (r.1, sleepBackoff (attempts + 1) :: r.2)
termination_by 6 - attempts
decreasing_by omega

/-- `_embed_batch` from ingestion.py, abstracted over the embedding
service outcome (the returned value stands for the embedding list). -/
def embedBatch {ε α : Type} (oracle : Nat → Except ε α) : Except ε α × List ℚ :=
  retryFrom oracle 0

/-- `_upsert_vectors` from ingestion.py: the identical retry skeleton
around the index upsert call. -/
def upsertVectors {ε α : Type} (oracle : Nat → Except ε α) : Except ε α × List ℚ :=
  retryFrom oracle 0

/-- `_gen_chunks` from ingestion.py: after the defensive clamps
(`size ≤ 0 → 800`, `overlap < 0 → 0`), `step = max(1, size - overlap)` and
the windows are `text[start : start + size]` for
`start in range(0, len(text), step)` — that is, `start = k * step` for
`k < ⌈len(text) / step⌉`. -/
def genChunks (text : String) (size overlap : Int) : List String :=
  let sz : Int := if size ≤ 0 then 800 else size
  let ov : Int := if overlap < 0 then 0 else overlap
  let step : Nat := (max 1 (sz - ov)).toNat
  (List.range ((text.length + step - 1) / step)).map
    fun k => pySlice text (k * step) (k * step + sz.toNat)

/-- The batch loop of `ingest_path`: pull up to `batch_size` chunks from
the generator; stop when the pull comes back empty; increment
`batch_index` (1-based at use); give chunk `i` of the batch the id
`_deterministic_id(source, chunk, i + batch_index * 10_000)`.  Embedding
values and metadata do not enter the ids and are omitted; the step counter
starts at the chunk count, which bounds the number of batches. -/
def ingestGo (source : String) (B : Nat) : Nat → Nat → List String → List String
  | _, 0, _ => []
  | batchIndex, fuel + 1, chunks =>
    let batch := chunks.take B
    if batch = [] then []
    else
      (batch.enum.map fun p =>
          deterministicId source p.2 (p.1 + (batchIndex + 1) * 10000))
        ++ ingestGo source B (batchIndex + 1) fuel (chunks.drop B)

/-- The batch loop of `ingest_path` started at a given batch index. -/
def ingestLoop (source : String) (B batchIndex : Nat) (chunks : List String) :
    List String :=
  ingestGo source B batchIndex chunks.length chunks

/-- The ids `ingest_path` assigns for one document: chunk `text` with
`_gen_chunks(text, settings.chunk_size, settings.chunk_overlap)` and run
the batch loop with `batch_index` starting at 0. -/
def ingestIds (source text : String) (size overlap : Int) (B : Nat) :
    List String :=
  ingestLoop source B 0 (genChunks text size overlap)

/-- A 10002-character document (all `a`), used to exhibit an id collision
at `batch_size = 10001`. -/
def bigDoc : String := String.mk (List.replicate 10002 'a')

/-! ## Helper lemmas -/

/-- `_deterministic_id` sees the chunk text only through its length. -/
theorem deterministicId_congr (s c₁ c₂ : String) (i : Nat)
    (h : c₁.length = c₂.length) :
    deterministicId s c₁ i = deterministicId s c₂ i := by
  unfold deterministicId idMessage
  rw [h]

/-- `dropWhile` is idempotent. -/
theorem dropWhile_idem (p : Char → Bool) (l : List Char) :
    (l.dropWhile p).dropWhile p = l.dropWhile p := by
  cases h : l.dropWhile p with
  | nil => rfl
  | cons x xs =>
    have hx : p x = false := by
      have hw : l.dropWhile p ≠ [] := by rw [h]; simp
      have := List.head_dropWhile_not p l hw
      rw [show (l.dropWhile p).head hw = x by
        rw [List.head_eq_iff_head?_eq_some, h]; rfl] at this
      exact this
    rw [List.dropWhile_cons_of_neg]
    simp [hx]

/-- The trimmed list is a prefix of the front-trimmed list. -/
theorem stripL_prefix (l : List Char) : stripL l <+: l.dropWhile pyWS := by
  unfold stripL
  have h : ((l.dropWhile pyWS).reverse.dropWhile pyWS) <:+
      (l.dropWhile pyWS).reverse := List.dropWhile_suffix pyWS
  have h2 := List.reverse_prefix.mpr h
  rwa [List.reverse_reverse] at h2

/-- Trimming is already front-trimmed. -/
theorem dropWhile_stripL (l : List Char) :
    (stripL l).dropWhile pyWS = stripL l := by
  cases h : stripL l with
  | nil => rfl
  | cons x xs =>
    obtain ⟨t, ht⟩ := h ▸ stripL_prefix l
    have hw : l.dropWhile pyWS ≠ [] := by rw [← ht]; simp
    have hx : pyWS x = false := by
      have := List.head_dropWhile_not pyWS l hw
      rw [show (l.dropWhile pyWS).head hw = x by
        rw [List.head_eq_iff_head?_eq_some, ← ht]; rfl] at this
      exact this
    rw [List.dropWhile_cons_of_neg]
    simp [hx]

/-- `str.strip()` is idempotent (list form). -/
theorem stripL_idem (l : List Char) : stripL (stripL l) = stripL l := by
  conv_lhs => rw [stripL]
  rw [dropWhile_stripL]
  have hrev : (stripL l).reverse = (l.dropWhile pyWS).reverse.dropWhile pyWS := by
    rw [stripL, List.reverse_reverse]
  rw [hrev, dropWhile_idem, ← hrev, List.reverse_reverse]

/-- `str.strip()` is idempotent. -/
theorem pyStrip_idem (s : String) : pyStrip (pyStrip s) = pyStrip s := by
  show String.mk (stripL (String.mk (stripL s.data)).data) = _
  rw [show (String.mk (stripL s.data)).data = stripL s.data from rfl, stripL_idem]
  rfl

/-- A string is empty iff its length is zero. -/
theorem string_eq_empty_iff (s : String) : s = "" ↔ s.length = 0 := by
  rw [String.ext_iff]
  show s.data = [] ↔ s.data.length = 0
  exact List.length_eq_zero.symm

/-- The step counter of `batchedGo` is irrelevant once it covers the list
length. -/
theorem batchedGo_fuel {α : Type} (B : Nat) :
    ∀ (f₁ f₂ : Nat) (l : List α), l.length ≤ f₁ → l.length ≤ f₂ →
      batchedGo B f₁ l = batchedGo B f₂ l := by
  intro f₁
  induction f₁ with
  | zero =>
    intro f₂ l h₁ _
    have hl : l = [] := by
      cases l with
      | nil => rfl
      | cons a t => simp at h₁
    subst hl
    cases f₂ <;> simp [batchedGo]
  | succ f ih =>
    intro f₂ l h₁ h₂
    cases l with
    | nil => cases f₂ <;> simp [batchedGo]
    | cons a t =>
      cases f₂ with
      | zero => simp at h₂
      | succ f₂ =>
        simp only [batchedGo]
        by_cases hb : (((a :: t).take B).isEmpty : Bool)
        · simp [hb]
        · have hB : B ≠ 0 := by
            intro h0
            subst h0
            simp at hb
          simp only [hb, if_neg, Bool.false_eq_true, not_false_eq_true]
          have hlen : ((a :: t).drop B).length ≤ f ∧ ((a :: t).drop B).length ≤ f₂ := by
            simp only [List.length_drop, List.length_cons] at *
            omega
          rw [ih f₂ _ hlen.1 hlen.2]

/-- One-step unfolding of `batched`, matching the source loop: slice,
stop if the slice is empty, else yield it and recurse on the rest. -/
theorem batched_eq {α : Type} (l : List α) (B : Nat) :
    batched l B
      = if (l.take B).isEmpty then [] else l.take B :: batched (l.drop B) B := by
  cases l with
  | nil => simp [batched, batchedGo]
  | cons a t =>
    show batchedGo B (t.length + 1) (a :: t) = _
    simp only [batchedGo]
    by_cases hb : (((a :: t).take B).isEmpty : Bool)
    · simp [hb]
    · have hB : B ≠ 0 := by
        intro h0
        subst h0
        simp at hb
      simp only [hb, Bool.false_eq_true, not_false_eq_true, if_neg]
      rw [batched, batchedGo_fuel B t.length ((a :: t).drop B).length]
      · simp only [List.length_drop, List.length_cons]
        omega
      · exact Nat.le_refl _

/-- Flattening the batches restores the input list. -/
theorem batched_flatten {α : Type} (B : Nat) (hB : 0 < B) :
    ∀ (n : Nat) (l : List α), l.length ≤ n → (batched l B).flatten = l := by
  intro n
  induction n with
  | zero =>
    intro l h
    have : l = [] := List.eq_nil_of_length_eq_zero (Nat.le_zero.mp h)
    subst this
    simp [batched, batchedGo]
  | succ n ih =>
    intro l h
    rw [batched_eq]
    by_cases hb : ((l.take B).isEmpty : Bool)
    · have : l = [] := by
        rcases List.take_eq_nil_iff.mp (List.isEmpty_iff.mp hb) with h0 | h0
        · omega
        · exact h0
      simp [hb, this]
    · have hl : l ≠ [] := by
        intro h0
        subst h0
        simp at hb
      have hpos : 0 < l.length := List.length_pos.mpr hl
      simp only [hb, Bool.false_eq_true, not_false_eq_true, if_neg,
        List.flatten_cons]
      rw [ih (l.drop B)]
      · exact List.take_append_drop B l
      · simp only [List.length_drop]
        omega

/-- The number of batches is `⌈n / B⌉`. -/
theorem batched_length {α : Type} (B : Nat) (hB : 0 < B) :
    ∀ (n : Nat) (l : List α), l.length ≤ n →
      (batched l B).length = (l.length + B - 1) / B := by
  intro n
  induction n with
  | zero =>
    intro l h
    have : l = [] := List.eq_nil_of_length_eq_zero (Nat.le_zero.mp h)
    subst this
    simp [batched, batchedGo, Nat.div_eq_of_lt, hB]
  | succ n ih =>
    intro l h
    rw [batched_eq]
    by_cases hb : ((l.take B).isEmpty : Bool)
    · have : l = [] := by
        rcases List.take_eq_nil_iff.mp (List.isEmpty_iff.mp hb) with h0 | h0
        · omega
        · exact h0
      subst this
      simp [hb, Nat.div_eq_of_lt, hB]
    · have hl : l ≠ [] := by
        intro h0
        subst h0
        simp at hb
      have hpos : 0 < l.length := List.length_pos.mpr hl
      simp only [hb, Bool.false_eq_true, not_false_eq_true, if_neg,
        List.length_cons]
      rw [ih (l.drop B) (by simp only [List.length_drop]; omega)]
      simp only [List.length_drop]
      rcases Nat.le_total B l.length with hBl | hBl
      · have harith : l.length + B - 1 = (l.length - B + B - 1) + B := by omega
        rw [harith, Nat.add_div_right _ hB]
      · have hdrop : l.length - B = 0 := by omega
        rw [hdrop]
        have h1 : (0 + B - 1) / B = 0 := by
          apply Nat.div_eq_of_lt
          omega
        have h2 : (l.length + B - 1) / B = 1 := by
          apply Nat.div_eq_of_lt_le <;> omega
        omega

/-- Every batch is non-empty and no longer than `B`. -/
theorem batched_mem {α : Type} (B : Nat) (hB : 0 < B) :
    ∀ (n : Nat) (l : List α), l.length ≤ n →
      ∀ g ∈ batched l B, g ≠ [] ∧ g.length ≤ B := by
  intro n
  induction n with
  | zero =>
    intro l h g hg
    have : l = [] := List.eq_nil_of_length_eq_zero (Nat.le_zero.mp h)
    subst this
    simp [batched, batchedGo] at hg
  | succ n ih =>
    intro l h g hg
    rw [batched_eq] at hg
    by_cases hb : ((l.take B).isEmpty : Bool)
    · simp [hb] at hg
    · have hl : l ≠ [] := by
        intro h0
        subst h0
        simp at hb
      have hpos : 0 < l.length := List.length_pos.mpr hl
      simp only [hb, Bool.false_eq_true, not_false_eq_true, if_neg,
        List.mem_cons] at hg
      rcases hg with rfl | hg
      · refine ⟨fun h0 => ?_, ?_⟩
        · rw [h0] at hb
          simp at hb
        · simp only [List.length_take]
          omega
      · exact ih (l.drop B) (by simp only [List.length_drop]; omega) g hg

/-- Every batch except possibly the last has length exactly `B`. -/
theorem batched_dropLast {α : Type} (B : Nat) (hB : 0 < B) :
    ∀ (n : Nat) (l : List α), l.length ≤ n →
      ∀ g ∈ (batched l B).dropLast, g.length = B := by
  intro n
  induction n with
  | zero =>
    intro l h g hg
    have : l = [] := List.eq_nil_of_length_eq_zero (Nat.le_zero.mp h)
    subst this
    simp [batched, batchedGo] at hg
  | succ n ih =>
    intro l h g hg
    rw [batched_eq] at hg
    by_cases hb : ((l.take B).isEmpty : Bool)
    · simp [hb] at hg
    · have hl : l ≠ [] := by
        intro h0
        subst h0
        simp at hb
      have hpos : 0 < l.length := List.length_pos.mpr hl
      simp only [hb, Bool.false_eq_true, not_false_eq_true, if_neg] at hg
      cases hrest : batched (l.drop B) B with
      | nil =>
        rw [hrest] at hg
        simp at hg
      | cons g0 gs =>
        have hdrop : l.drop B ≠ [] := by
          intro h0
          rw [h0] at hrest
          simp [batched, batchedGo] at hrest
        have hBl : B < l.length := by
          have := List.length_pos.mpr hdrop
          simp only [List.length_drop] at this
          omega
        rw [hrest, List.dropLast_cons₂, List.mem_cons] at hg
        rcases hg with rfl | hg
        · simp only [List.length_take]
          omega
        · rw [← hrest] at hg
          exact ih (l.drop B) (by simp only [List.length_drop]; omega) g hg

/-- The step counter of `ingestGo` is irrelevant once it covers the chunk
count. -/
theorem ingestGo_fuel (source : String) (B : Nat) :
    ∀ (f₁ f₂ j : Nat) (chunks : List String),
      chunks.length ≤ f₁ → chunks.length ≤ f₂ →
      ingestGo source B j f₁ chunks = ingestGo source B j f₂ chunks := by
  intro f₁
  induction f₁ with
  | zero =>
    intro f₂ j chunks h₁ h₂
    have hc : chunks = [] := List.eq_nil_of_length_eq_zero (Nat.le_zero.mp h₁)
    subst hc
    cases f₂ <;> simp [ingestGo]
  | succ f ih =>
    intro f₂ j chunks h₁ h₂
    cases chunks with
    | nil => cases f₂ <;> simp [ingestGo]
    | cons a t =>
      cases f₂ with
      | zero => simp at h₂
      | succ f₂ =>
        simp only [List.length_cons] at h₁ h₂
        simp only [ingestGo]
        by_cases hb : (a :: t).take B = []
        · simp [hb]
        · have hB : B ≠ 0 := by
            intro h0
            subst h0
            simp at hb
          simp only [if_neg hb]
          congr 1
          exact ih f₂ (j + 1) ((a :: t).drop B)
            (by simp only [List.length_drop, List.length_cons]; omega)
            (by simp only [List.length_drop, List.length_cons]; omega)

/-- One-step unfolding of the ingestion batch loop. -/
theorem ingestLoop_eq (source : String) (B j : Nat) (chunks : List String) :
    ingestLoop source B j chunks
      = if chunks.take B = [] then []
        else ((chunks.take B).enum.map fun p =>
            deterministicId source p.2 (p.1 + (j + 1) * 10000))
          ++ ingestLoop source B (j + 1) (chunks.drop B) := by
  cases chunks with
  | nil => simp [ingestLoop, ingestGo]
  | cons a t =>
    show ingestGo source B j (t.length + 1) (a :: t) = _
    simp only [ingestGo]
    by_cases hb : (a :: t).take B = []
    · simp [hb]
    · have hB : B ≠ 0 := by
        intro h0
        subst h0
        simp at hb
      simp only [if_neg hb]
      congr 1
      rw [ingestLoop]
      exact ingestGo_fuel source B t.length ((a :: t).drop B).length (j + 1) _
        (by simp only [List.length_drop, List.length_cons]; omega)
        (Nat.le_refl _)

/-- The id assigned to the chunk at flat position `k` (when the loop
starts at batch index `j`): `_deterministic_id` at ordinal
`k % B + (k / B + (j + 1)) * 10000` — position within the batch plus
10000 times the 1-based batch number. -/
theorem ingestLoop_getElem? (source : String) (B : Nat) (hB : 0 < B) :
    ∀ (n : Nat) (chunks : List String), chunks.length ≤ n → ∀ (j k : Nat),
      (ingestLoop source B j chunks)[k]?
        = chunks[k]?.map
            (fun c => deterministicId source c (k % B + (k / B + (j + 1)) * 10000)) := by
  intro n
  induction n with
  | zero =>
    intro chunks h j k
    have hc : chunks = [] := List.eq_nil_of_length_eq_zero (Nat.le_zero.mp h)
    subst hc
    simp [ingestLoop, ingestGo]
  | succ n ih =>
    intro chunks h j k
    rw [ingestLoop_eq]
    by_cases hb : chunks.take B = []
    · have hc : chunks = [] := by
        rcases List.take_eq_nil_iff.mp hb with h0 | h0
        · omega
        · exact h0
      subst hc
      simp
    · have hc : chunks ≠ [] := by
        intro h0
        subst h0
        simp at hb
      have hpos : 0 < chunks.length := List.length_pos.mpr hc
      rw [if_neg hb]
      have hfirstlen : ((chunks.take B).enum.map fun p =>
          deterministicId source p.2 (p.1 + (j + 1) * 10000)).length
            = min B chunks.length := by
        simp [List.enum_eq_enumFrom, List.enumFrom_length]
      by_cases hk : k < min B chunks.length
      · rw [List.getElem?_append_left (by rw [hfirstlen]; exact hk)]
        rw [List.getElem?_map, List.enum_eq_enumFrom, List.getElem?_enumFrom,
          List.getElem?_take_of_lt (by omega : k < B)]
        have hmod : k % B = k := Nat.mod_eq_of_lt (by omega)
        have hdiv : k / B = 0 := Nat.div_eq_of_lt (by omega)
        rw [hmod, hdiv]
        cases chunks[k]? with
        | none => rfl
        | some c => simp [Nat.zero_add]
      · rw [List.getElem?_append_right (by rw [hfirstlen]; omega)]
        rw [hfirstlen]
        rcases Nat.le_total B chunks.length with hBl | hBl
        · have hmin : min B chunks.length = B := Nat.min_eq_left hBl
          rw [hmin] at hk ⊢
          have hkB : B ≤ k := by omega
          rw [ih (chunks.drop B)
            (by simp only [List.length_drop]; omega) (j + 1) (k - B)]
          rw [List.getElem?_drop]
          rw [show B + (k - B) = k by omega]
          cases chunks[k]? with
          | none => rfl
          | some c =>
            simp only [Option.map_some']
            congr 1
            rw [Nat.mod_eq_sub_mod hkB, Nat.div_eq_sub_div hB hkB]
            ring_nf
        · have hmin : min B chunks.length = chunks.length := Nat.min_eq_right hBl
          rw [hmin] at hk ⊢
          have hdrop : chunks.drop B = [] := List.drop_eq_nil_of_le hBl
          rw [hdrop]
          have hnone : chunks[k]? = none := List.getElem?_eq_none (by omega)
          rw [hnone]
          simp [ingestLoop, ingestGo]

/-- The per-batch id map sees each chunk only through its length. -/
theorem enumFrom_map_det_congr (source : String) (m : Nat) :
    ∀ (xs ys : List String) (k : Nat),
      xs.map String.length = ys.map String.length →
      (List.enumFrom k xs).map (fun p => deterministicId source p.2 (p.1 + m))
        = (List.enumFrom k ys).map (fun p => deterministicId source p.2 (p.1 + m)) := by
  intro xs
  induction xs with
  | nil =>
    intro ys k h
    have : ys = [] := by simpa using h.symm
    subst this
    rfl
  | cons x xt ih =>
    intro ys k h
    cases ys with
    | nil => simp at h
    | cons y yt =>
      simp only [List.map_cons, List.cons.injEq] at h
      simp only [List.enumFrom_cons, List.map_cons]
      rw [deterministicId_congr source x y (k + m) h.1, ih yt (k + 1) h.2]

/-- The ids of a whole ingestion run depend on the chunk list only
through the chunk lengths. -/
theorem ingestLoop_len_congr (source : String) (B : Nat) :
    ∀ (n : Nat) (c₁ c₂ : List String), c₁.length ≤ n →
      c₁.map String.length = c₂.map String.length →
      ∀ j, ingestLoop source B j c₁ = ingestLoop source B j c₂ := by
  intro n
  induction n with
  | zero =>
    intro c₁ c₂ h₁ h j
    have h1 : c₁ = [] := List.eq_nil_of_length_eq_zero (Nat.le_zero.mp h₁)
    subst h1
    have h2 : c₂ = [] := by simpa using h.symm
    subst h2
    rfl
  | succ n ih =>
    intro c₁ c₂ h₁ h j
    have hlen : c₁.length = c₂.length := by
      have := congrArg List.length h
      simpa using this
    rw [ingestLoop_eq source B j c₁, ingestLoop_eq source B j c₂]
    by_cases hb : c₁.take B = []
    · have hb2 : c₂.take B = [] := by
        rcases List.take_eq_nil_iff.mp hb with h0 | h0
        · exact List.take_eq_nil_iff.mpr (Or.inl h0)
        · refine List.take_eq_nil_iff.mpr (Or.inr ?_)
          rw [h0] at hlen
          have : c₂.length = 0 := hlen.symm
          exact List.eq_nil_of_length_eq_zero this
      rw [if_pos hb, if_pos hb2]
    · have hb2 : ¬ c₂.take B = [] := by
        intro h0
        rcases List.take_eq_nil_iff.mp h0 with h1 | h1
        · exact hb (List.take_eq_nil_iff.mpr (Or.inl h1))
        · rw [h1] at hlen
          simp at hlen
          exact hb (List.take_eq_nil_iff.mpr (Or.inr hlen))
      rw [if_neg hb, if_neg hb2]
      have htake : (c₁.take B).map String.length = (c₂.take B).map String.length := by
        rw [List.map_take, List.map_take, h]
      have hdrop : (c₁.drop B).map String.length = (c₂.drop B).map String.length := by
        rw [List.map_drop, List.map_drop, h]
      have hc1 : c₁ ≠ [] := by
        intro h0
        exact hb (by rw [h0]; simp)
      congr 1
      · simp only [List.enum_eq_enumFrom]
        exact enumFrom_map_det_congr source ((j + 1) * 10000) _ _ 0 htake
      · refine ih (c₁.drop B) (c₂.drop B) ?_ hdrop (j + 1)
        have hpos : 0 < c₁.length := List.length_pos.mpr hc1
        have hB : B ≠ 0 := by
          intro h0
          exact hb (by rw [h0]; simp)
        simp only [List.length_drop]
        omega

/-- `bigDoc` has 10002 characters. -/
theorem bigDoc_length : bigDoc.length = 10002 := by
  show (List.replicate 10002 'a').length = 10002
  exact List.length_replicate 10002 'a'

/-- Every one-character window of `bigDoc` is `"a"`. -/
theorem pySlice_bigDoc (k : Nat) (hk : k < 10002) :
    pySlice bigDoc (k * 1) (k * 1 + 1) = "a" := by
  unfold pySlice bigDoc
  rw [show (String.mk (List.replicate 10002 'a')).data
      = List.replicate 10002 'a' from rfl]
  rw [Nat.mul_one]
  rw [List.drop_replicate, List.take_replicate]
  rw [show k + 1 - k = 1 by omega]
  rw [show min 1 (10002 - k) = 1 by omega]
  rfl

/-- The chunking of `bigDoc` at `chunk_size = 1`, `chunk_overlap = 0`. -/
theorem genChunks_bigDoc_eq :
    genChunks bigDoc 1 0
      = (List.range 10002).map fun k => pySlice bigDoc (k * 1) (k * 1 + 1) := by
  simp only [genChunks]
  rw [if_neg (show ¬ (1 : Int) ≤ 0 by decide),
    if_neg (show ¬ (0 : Int) < 0 by decide)]
  rw [show (max (1 : Int) (1 - 0)).toNat = 1 by decide,
    show (1 : Int).toNat = 1 by decide]
  rw [bigDoc_length]

/-- `bigDoc` splits into 10002 chunks. -/
theorem genChunks_bigDoc_length : (genChunks bigDoc 1 0).length = 10002 := by
  rw [genChunks_bigDoc_eq]
  simp

/-- Every chunk of `bigDoc` is `"a"`. -/
theorem genChunks_bigDoc_getElem (k : Nat) (hk : k < 10002) :
    (genChunks bigDoc 1 0)[k]? = some "a" := by
  rw [genChunks_bigDoc_eq, List.getElem?_map, List.getElem?_range hk]
  simp only [Option.map_some']
  rw [pySlice_bigDoc k hk]

/-- Once the cursor has passed the end of the text, the `chunk_text` loop
returns at once, whatever the step counter. -/
theorem chunkTextLoop_done (text : String) (size overlap start : Int)
    (h : ¬ start < (text.length : Int)) :
    ∀ fuel, chunkTextLoop text size overlap start fuel = some [] := by
  intro fuel
  cases fuel <;> simp [chunkTextLoop, h]

/-- Every chunk a completed `chunk_text` loop emits is already trimmed and
non-empty. -/
theorem chunkTextLoop_members (text : String) (size overlap : Int) :
    ∀ (fuel : Nat) (start : Int) (out : List String),
      chunkTextLoop text size overlap start fuel = some out →
      ∀ c ∈ out, pyStrip c = c ∧ c ≠ "" := by
  intro fuel
  induction fuel with
  | zero =>
    intro start out h c hc
    simp only [chunkTextLoop] at h
    split at h
    · exact absurd h (by simp)
    · rw [← Option.some.inj h] at hc
      simp at hc
  | succ fuel ih =>
    intro start out h c hc
    simp only [chunkTextLoop] at h
    split at h
    · cases hrec : chunkTextLoop text size overlap (chunkNext text size overlap start) fuel with
      | none => rw [hrec] at h; simp at h
      | some rest =>
        rw [hrec] at h
        simp only [Option.some.injEq] at h
        rw [← h] at hc
        by_cases hch : pyStrip (pySlice text start.toNat
            (min (start + size) (text.length : Int)).toNat) = ""
        · rw [if_pos hch] at hc
          exact ih _ rest hrec c hc
        · rw [if_neg hch] at hc
          rcases List.mem_cons.mp hc with rfl | hcr
          · exact ⟨pyStrip_idem _, hch⟩
          · exact ih _ rest hrec c hcr
    · rw [← Option.some.inj h] at hc
      simp at hc

/-- The streaming chunker yields no chunks exactly on the empty text: its
window count is `⌈len / step⌉` with `step ≥ 1`, which is positive whenever
the text is non-empty (whitespace-only or not). -/
theorem genChunks_eq_nil_iff (text : String) (size overlap : Int) :
    genChunks text size overlap = [] ↔ text = "" := by
  unfold genChunks
  have h1 : (1 : Int) ≤ max 1 ((if size ≤ 0 then (800 : Int) else size)
      - (if overlap < 0 then 0 else overlap)) := le_max_left _ _
  simp only [List.map_eq_nil_iff, List.range_eq_nil]
  rw [string_eq_empty_iff]
  rw [Nat.div_eq_zero_iff (by omega)]
  omega

/-- From cursor 1 on the two-character text `"AB"` with `chunk_size = 2`,
`chunk_overlap = 1`, the `chunk_text` loop never finishes: the new cursor
`end - overlap = 2 - 1 = 1` equals the old one and the `start == end`
guard does not fire. -/
theorem chunkTextLoop_AB_stuck : ∀ f, chunkTextLoop "AB" 2 1 1 f = none := by
  intro f
  induction f with
  | zero => rfl
  | succ f ih =>
    show (match chunkTextLoop "AB" 2 1 1 f with
          | none => none
          | some rest => some (if ("B" : String) = "" then rest else "B" :: rest)) = none
    rw [ih]

/-- If every call from position `j` on fails, the retry loop stops after
call 5 (the sixth call overall), re-raising that call's error, having
slept the backoffs for attempts `j+1 … 5`. -/
theorem retryFrom_fail {ε α : Type} (oracle : Nat → Except ε α) (e : Nat → ε) :
    ∀ (d j : Nat), j + d = 5 →
      (∀ i, j ≤ i → i ≤ 5 → oracle i = Except.error (e i)) →
      retryFrom oracle j
        = (Except.error (e 5), (List.range' (j + 1) (5 - j)).map sleepBackoff) := by
  intro d
  induction d with
  | zero =>
    intro j hj h
    have hj5 : j = 5 := by omega
    subst hj5
    rw [retryFrom, h 5 (Nat.le_refl _) (Nat.le_refl _)]
    simp
  | succ d ih =>
    intro j hj h
    rw [retryFrom, h j (Nat.le_refl _) (by omega)]
    have hlt : ¬ j + 1 > 5 := by omega
    simp only [hlt, if_false]
    rw [ih (j + 1) (by omega) (fun i hi hi5 => h i (by omega) hi5)]
    have hr : 5 - j = (5 - (j + 1)) + 1 := by omega
    rw [hr, List.range'_succ, List.map_cons]

/-- If calls `j … k-1` fail and call `k ≤ 5` succeeds, the retry loop
returns that call's value, having slept the backoffs for attempts
`j+1 … k`. -/
theorem retryFrom_ok {ε α : Type} (oracle : Nat → Except ε α) (a : α) :
    ∀ (d j k : Nat), j + d = k → k ≤ 5 →
      (∀ i, j ≤ i → i < k → ∃ err, oracle i = Except.error err) →
      oracle k = Except.ok a →
      retryFrom oracle j
        = (Except.ok a, (List.range' (j + 1) (k - j)).map sleepBackoff) := by
  intro d
  induction d with
  | zero =>
    intro j k hj hk h hok
    have hjk : j = k := by omega
    subst hjk
    rw [retryFrom, hok]
    simp
  | succ d ih =>
    intro j k hj hk h hok
    obtain ⟨err, herr⟩ := h j (Nat.le_refl _) (by omega)
    rw [retryFrom, herr]
    have hlt : ¬ j + 1 > 5 := by omega
    simp only [hlt, if_false]
    rw [ih (j + 1) k (by omega) hk (fun i hi hik => h i (by omega) hik) hok]
    have hr : k - j = (k - (j + 1)) + 1 := by omega
    rw [hr, List.range'_succ, List.map_cons]

/-! ## Claims -/

/-- Claim C2, counterexample: on `"ABCDEFGHIJ"` with `chunk_size = 4` and
`chunk_overlap = 1` the streaming chunker does not produce the three
chunks the claim lists — the cursor also visits 9, inside the text. -/
theorem C2_counterexample :
    genChunks "ABCDEFGHIJ" 4 1 ≠ ["ABCD", "DEFG", "GHIJ"] := by
  decide

/-- Claim C2 as amended: the chunker produces exactly the four pre-trim
chunks `"ABCD", "DEFG", "GHIJ", "J"` from cursor positions 0, 3, 6, 9
(step `max(1, 4 - 1) = 3`), stopping only after the fourth chunk, when
the cursor (12) passes the end of the 10-character text. -/
theorem C2_amended_four_chunks :
    genChunks "ABCDEFGHIJ" 4 1 = ["ABCD", "DEFG", "GHIJ", "J"] := by
  decide

/-- Claim C6, counterexample: changing only the chunk text does NOT
change the digest when the length is unchanged — `_deterministic_id`
hashes `len(chunk_text)`, not the text. -/
theorem C6_counterexample :
    deterministicId "s" "ab" 0 = deterministicId "s" "cd" 0 ∧ "ab" ≠ "cd" :=
  ⟨deterministicId_congr "s" "ab" "cd" 0 (by decide), by decide⟩

/-- Claim C6 as amended: the digest is a pure function that depends on the
chunk text only through its length — identical `(path, ordinal, length)`
always give the identical digest, any same-length change of the chunk
text leaves it unchanged, while changing the source path, the ordinal, or
the chunk length changes it (witnessed at concrete inputs). -/
theorem C6_amended :
    (∀ (s c₁ c₂ : String) (i : Nat), c₁.length = c₂.length →
        deterministicId s c₁ i = deterministicId s c₂ i)
    ∧ deterministicId "s" "ab" 0 ≠ deterministicId "t" "ab" 0
    ∧ deterministicId "s" "ab" 0 ≠ deterministicId "s" "ab" 1
    ∧ deterministicId "s" "ab" 0 ≠ deterministicId "s" "abc" 0 :=
  ⟨deterministicId_congr, by decide, by decide, by decide⟩

/-- Witness for `C6_amended` at a concrete input. -/
theorem C6_amended_witness :
    deterministicId "src" "xy" 7 = deterministicId "src" "qr" 7 :=
  C6_amended.1 "src" "xy" "qr" 7 (by decide)

/-- Claim C1, counterexample: the id of the second chunk of the two-chunk
document `"AB"` (chunk_size 1, overlap 0) under `batch_size = 1` is absent
from the id set produced under `batch_size = 2`, because the ordinal fed
to `_deterministic_id` is `i + 10000 * batch_index` and the batch split
differs — so re-ingestion with a different `batch_size` does not produce
the same set of ids. -/
theorem C1_counterexample :
    deterministicId "doc.txt" "B" 20000 ∈ ingestIds "doc.txt" "AB" 1 0 1
    ∧ deterministicId "doc.txt" "B" 20000 ∉ ingestIds "doc.txt" "AB" 1 0 2 := by
  decide

/-- Claim C1 as amended: with the batch size fixed as well, the
vector-record ids are a function of the source path, the chunk positions
and the chunk lengths alone — any two documents whose chunkings have
pointwise-equal chunk lengths receive identical id lists under the same
source path, chunking parameters and batch size; in particular,
re-ingesting an unchanged document with unchanged settings (including
`batch_size`, on which the fed ordinal `i + 10000 * batch_index` does
depend) reproduces the identical ids. -/
theorem C1_amended_ids_from_lengths :
    ∀ (source text₁ text₂ : String) (size overlap : Int) (B : Nat),
      (genChunks text₁ size overlap).map String.length
        = (genChunks text₂ size overlap).map String.length →
      ingestIds source text₁ size overlap B = ingestIds source text₂ size overlap B := by
  intro source t₁ t₂ size overlap B h
  unfold ingestIds
  exact ingestLoop_len_congr source B (genChunks t₁ size overlap).length _ _
    (Nat.le_refl _) h 0

/-- Witness for `C1_amended_ids_from_lengths` at a concrete input. -/
theorem C1_witness : ingestIds "d" "AB" 1 0 2 = ingestIds "d" "XY" 1 0 2 :=
  C1_amended_ids_from_lengths "d" "AB" "XY" 1 0 2 (by decide)

/-- Claim C9: the ordinal the ingestion loop feeds into
`_deterministic_id` for the chunk at flat position `n` is
`(n % B) + 10000 * (n / B + 1)` — its position `i` within the batch plus
10000 times the 1-based batch index; this map is injective for every
`B ≤ 10000`, but at `B = 10001` the 10002-chunk uniform document `bigDoc`
gives its distinct chunks 10000 and 10001 the same ordinal 20000, the
same `(path, index, length)` triple, and hence the same id. -/
theorem C9_ordinal_mapping :
    (∀ (source text : String) (size overlap : Int) (B n : Nat), 0 < B →
        (ingestIds source text size overlap B)[n]?
          = ((genChunks text size overlap)[n]?).map
              (fun c => deterministicId source c (n % B + 10000 * (n / B + 1))))
    ∧ (∀ (B n₁ n₂ : Nat), 0 < B → B ≤ 10000 →
        n₁ % B + 10000 * (n₁ / B + 1) = n₂ % B + 10000 * (n₂ / B + 1) →
        n₁ = n₂)
    ∧ ((10000 : Nat) < 10001
      ∧ (genChunks bigDoc 1 0).length = 10002
      ∧ (ingestIds "doc" bigDoc 1 0 10001)[10000]?
          = some (deterministicId "doc" "a" 20000)
      ∧ (ingestIds "doc" bigDoc 1 0 10001)[10001]?
          = some (deterministicId "doc" "a" 20000)
      ∧ (10000 : Nat) ≠ 10001) := by
  have hflat : ∀ (source text : String) (size overlap : Int) (B n : Nat), 0 < B →
      (ingestIds source text size overlap B)[n]?
        = ((genChunks text size overlap)[n]?).map
            (fun c => deterministicId source c (n % B + 10000 * (n / B + 1))) := by
    intro source text size overlap B n hB
    rw [show ingestIds source text size overlap B
        = ingestLoop source B 0 (genChunks text size overlap) from rfl]
    rw [ingestLoop_getElem? source B hB (genChunks text size overlap).length _
      (Nat.le_refl _) 0 n]
    refine Option.map_congr fun c _ => ?_
    congr 1
    ring
  refine ⟨hflat, ?_, ?_⟩
  · intro B n₁ n₂ hB hB10 h
    have key₁ : n₁ % B < 10000 := lt_of_lt_of_le (Nat.mod_lt _ hB) hB10
    have key₂ : n₂ % B < 10000 := lt_of_lt_of_le (Nat.mod_lt _ hB) hB10
    have h1 := congrArg (fun x => x % 10000) h
    simp only [Nat.add_mul_mod_self_left] at h1
    rw [Nat.mod_eq_of_lt key₁, Nat.mod_eq_of_lt key₂] at h1
    have h2 := congrArg (fun x => x / 10000) h
    simp only at h2
    rw [Nat.add_mul_div_left _ _ (by omega : 0 < (10000 : Nat)),
      Nat.add_mul_div_left _ _ (by omega : 0 < (10000 : Nat))] at h2
    rw [Nat.div_eq_of_lt key₁, Nat.div_eq_of_lt key₂] at h2
    have hq : n₁ / B = n₂ / B := by omega
    calc n₁ = B * (n₁ / B) + n₁ % B := (Nat.div_add_mod n₁ B).symm
      _ = B * (n₂ / B) + n₂ % B := by rw [h1, hq]
      _ = n₂ := Nat.div_add_mod n₂ B
  · refine ⟨by omega, genChunks_bigDoc_length, ?_, ?_, by omega⟩
    · rw [hflat "doc" bigDoc 1 0 10001 10000 (by omega),
        genChunks_bigDoc_getElem 10000 (by omega)]
      simp only [Option.map_some']
    · rw [hflat "doc" bigDoc 1 0 10001 10001 (by omega),
        genChunks_bigDoc_getElem 10001 (by omega)]
      simp only [Option.map_some']

/-- Witness for `C9_ordinal_mapping` at concrete inputs. -/
theorem C9_witness :
    ((ingestIds "s" "AB" 1 0 2)[1]?
      = ((genChunks "AB" 1 0)[1]?).map
          (fun c => deterministicId "s" c (1 % 2 + 10000 * (1 / 2 + 1))))
    ∧ (3 : Nat) = 3 :=
  ⟨C9_ordinal_mapping.1 "s" "AB" 1 0 2 1 (by omega),
   C9_ordinal_mapping.2.1 2 3 3 (by omega) (by omega) rfl⟩

/-- Claim C10: the scanner's extension test lower-cases the suffix before
comparing with `{.txt, .md, .markdown}`, so matching is case-insensitive:
a file is yielded exactly when it is under the root and its lower-cased
suffix is in the supported set. -/
theorem C10_extension_case_insensitive :
    (∀ (files : List String) (f : String),
        f ∈ iterTextFiles files
          ↔ f ∈ files ∧ pyLower (pySuffix f) ∈ SUPPORTED_EXTENSIONS)
    ∧ ingestibleFile "notes.TXT" = true
    ∧ ingestibleFile "readme.Md" = true
    ∧ ingestibleFile "guide.MARKDOWN" = true
    ∧ ingestibleFile "image.PNG" = false
    ∧ ingestibleFile "archive.txt.bak" = false := by
  refine ⟨fun files f => ?_, by decide, by decide, by decide, by decide, by decide⟩
  simp [iterTextFiles, List.mem_filter, ingestibleFile, List.contains,
    List.elem_iff]

/-- Witness for `C10_extension_case_insensitive` at a concrete input. -/
theorem C10_witness : "a.txt" ∈ iterTextFiles ["a.txt", "b.png"] :=
  (C10_extension_case_insensitive.1 ["a.txt", "b.png"] "a.txt").mpr (by decide)

/-- Claim C3: the eager chunker `chunk_text` does NOT terminate on the
valid configuration `chunk_size = 2`, `chunk_overlap = 1` (which satisfies
`S > 0`, `0 ≤ O < S`) applied to the two-character text `"AB"`: however
many loop iterations are allowed, the run is still unfinished — the
cursor reaches `len - overlap = 1` and stays there forever, far beyond
the claimed bound of `⌈2 / 1⌉ + 1 = 3` steps.  The streaming chunker
`_gen_chunks`, by contrast, does satisfy the claimed bound: it emits
`⌈len / (S - O)⌉` windows, one per step. -/
theorem C3_chunk_text_nontermination :
    (∀ fuel, chunkText "AB" 2 1 fuel = none)
    ∧ (∀ (T : String) (S O : Nat), 0 < S → O < S →
        (genChunks T (S : Int) (O : Int)).length
          ≤ (T.length + (S - O) - 1) / (S - O) + 1) := by
  constructor
  · intro fuel
    have h0 : chunkTextLoop "AB" 2 1 0 fuel = none := by
      cases fuel with
      | zero => rfl
      | succ f =>
        show (match chunkTextLoop "AB" 2 1 1 f with
              | none => none
              | some rest => some (if ("AB" : String) = "" then rest else "AB" :: rest)) = none
        rw [chunkTextLoop_AB_stuck f]
    show (chunkTextLoop "AB" 2 1 0 fuel).map Except.ok = none
    rw [h0]
    rfl
  · intro T S O hS hO
    simp only [genChunks, List.length_map, List.length_range]
    rw [if_neg (show ¬ ((S : Nat) : Int) ≤ 0 by omega),
      if_neg (show ¬ ((O : Nat) : Int) < 0 by omega)]
    have h1 : (1 : Int) ≤ ((S : Nat) : Int) - ((O : Nat) : Int) := by omega
    rw [max_eq_right h1]
    rw [show (((S : Nat) : Int) - ((O : Nat) : Int)).toNat = S - O by omega]
    exact Nat.le_succ _

/-- Witness for `C3_chunk_text_nontermination` at concrete inputs. -/
theorem C3_witness :
    chunkText "AB" 2 1 7 = none
    ∧ (genChunks "ABCDEFGHIJ" ((4 : Nat) : Int) ((1 : Nat) : Int)).length
        ≤ ("ABCDEFGHIJ".length + (4 - 1) - 1) / (4 - 1) + 1 :=
  ⟨C3_chunk_text_nontermination.1 7,
   C3_chunk_text_nontermination.2 "ABCDEFGHIJ" 4 1 (by omega) (by omega)⟩

/-- Claim C4, counterexample: on `"AB"` with `chunk_size = 1`,
`chunk_overlap = 0` (both chunkers terminate here) the eager chunker
returns `["A"]` — after emitting `[0, 1)` its cursor jumps from 1 to 2,
skipping `"B"` — while the streaming chunker yields `["A", "B"]`; the
outputs are not byte-identical. -/
theorem C4_counterexample :
    chunkText "AB" 1 0 20 ≠ some (Except.ok (genChunks "AB" 1 0))
    ∧ chunkText "AB" 1 0 20 = some (Except.ok ["A"])
    ∧ genChunks "AB" 1 0 = ["A", "B"] := by
  refine ⟨?_, rfl, rfl⟩
  intro h
  rw [show genChunks "AB" 1 0 = ["A", "B"] from rfl,
    show chunkText "AB" 1 0 20 = some (Except.ok ["A"]) from rfl] at h
  simp at h

/-- Claim C4 as amended: the two chunkers do not produce byte-identical
output in general (the eager one trims, drops empty chunks, skips a
character after each full window when `overlap = 0`, and does not
terminate on non-empty text when `overlap ≥ 1`); they do agree on the
empty text, where both produce no chunks, and on any already-trimmed
non-empty text that fits a single window with `chunk_overlap = 0`, where
both produce exactly that text. -/
theorem C4_amended_agreement :
    (∀ (size overlap : Int) (fuel : Nat), 0 < size → overlap < size →
        chunkText "" size overlap fuel = some (Except.ok [])
        ∧ genChunks "" size overlap = [])
    ∧ (∀ (text : String) (size fuel : Nat),
        0 < size → text.length ≤ size → pyStrip text = text → text ≠ "" →
        1 ≤ fuel →
        chunkText text (size : Int) 0 fuel = some (Except.ok [text])
        ∧ genChunks text (size : Int) 0 = [text]) := by
  constructor
  · intro size overlap fuel hs ho
    refine ⟨?_, (genChunks_eq_nil_iff _ _ _).mpr rfl⟩
    unfold chunkText
    rw [if_neg (by omega), if_neg (by omega),
      chunkTextLoop_done _ _ _ _ (by decide) fuel]
    rfl
  · intro text size fuel hs hls hstrip hne hfuel
    have hLpos : 0 < text.length := by
      by_contra h0
      exact hne ((string_eq_empty_iff text).mpr (by omega))
    obtain ⟨f, rfl⟩ : ∃ f, fuel = f + 1 := ⟨fuel - 1, by omega⟩
    have hmin : min ((0 : Int) + (size : Int)) ((text.length : Nat) : Int)
        = ((text.length : Nat) : Int) := by
      rw [zero_add]
      exact min_eq_right (by exact_mod_cast hls)
    have hslice : pySlice text (0 : Int).toNat
        ((min ((0 : Int) + (size : Int)) ((text.length : Nat) : Int)).toNat) = text := by
      rw [hmin]
      show pySlice text 0 (((text.length : Nat) : Int)).toNat = text
      rw [Int.toNat_ofNat]
      show String.mk ((text.data.drop 0).take (text.length - 0)) = text
      rw [List.drop_zero, Nat.sub_zero]
      show String.mk (text.data.take text.data.length) = text
      rw [List.take_length]
    have hnext : chunkNext text (size : Int) 0 0 = (text.length : Int) + 1 := by
      simp only [chunkNext]
      rw [hmin, sub_zero,
        if_neg (show ¬ ((text.length : Nat) : Int) < 0 by omega), if_pos rfl]
    have hloop : chunkTextLoop text (size : Int) 0 0 (f + 1) = some [text] := by
      simp only [chunkTextLoop]
      rw [if_pos (by exact_mod_cast hLpos), hnext,
        chunkTextLoop_done _ _ _ _ (by omega) f, hslice, hstrip]
      simp [hne]
    constructor
    · unfold chunkText
      rw [if_neg (by omega), if_neg (by omega), hloop]
      rfl
    · simp only [genChunks]
      rw [if_neg (show ¬ ((size : Nat) : Int) ≤ 0 by omega),
        if_neg (show ¬ ((0 : Int) < 0) by omega)]
      rw [show max (1 : Int) (((size : Nat) : Int) - 0) = ((size : Nat) : Int) by
        rw [sub_zero]; exact max_eq_right (by omega)]
      rw [Int.toNat_ofNat]
      rw [show (text.length + size - 1) / size = 1 from
        Nat.div_eq_of_lt_le (by omega) (by omega)]
      show [pySlice text (0 * size) (0 * size + size)] = [text]
      rw [Nat.zero_mul, Nat.zero_add]
      show [String.mk ((text.data.drop 0).take (size - 0))] = [text]
      rw [List.drop_zero, Nat.sub_zero, List.take_of_length_le hls]

/-- Witness for `C4_amended_agreement` at concrete inputs. -/
theorem C4_witness :
    (chunkText "" 4 1 3 = some (Except.ok []) ∧ genChunks "" 4 1 = [])
    ∧ (chunkText "AB" ((2 : Nat) : Int) 0 1 = some (Except.ok ["AB"])
      ∧ genChunks "AB" ((2 : Nat) : Int) 0 = ["AB"]) :=
  ⟨C4_amended_agreement.1 4 1 3 (by omega) (by omega),
   C4_amended_agreement.2 "AB" 2 1 (by omega) (by decide) (by decide)
     (by decide) (by omega)⟩

/-- Claim C5, counterexample: the streaming chunker used by ingestion does
not trim — on the all-whitespace one-character document `" "` (with
`chunk_size = 1`, `chunk_overlap = 0`) it emits one chunk, `" "`, which is
empty after trimming, rather than zero chunks. -/
theorem C5_counterexample :
    genChunks " " 1 0 = [" "] ∧ pyStrip " " = "" := by
  constructor <;> decide

/-- Claim C5 as amended: the eager chunker `chunk_text` never emits a
chunk that is empty after trimming — every chunk of a completed run is
already trimmed and non-empty; the streaming chunker `_gen_chunks`, which
ingestion actually uses, emits raw untrimmed windows and yields zero
chunks exactly on the empty document, so an all-whitespace document
produces whitespace-only chunks rather than zero chunks. -/
theorem C5_amended_trimming :
    (∀ (text : String) (size overlap : Int) (fuel : Nat) (out : List String),
        chunkText text size overlap fuel = some (Except.ok out) →
        ∀ c ∈ out, pyStrip c = c ∧ c ≠ "")
    ∧ (∀ (text : String) (size overlap : Int),
        genChunks text size overlap = [] ↔ text = "") := by
  constructor
  · intro text size overlap fuel out h c hc
    unfold chunkText at h
    split at h
    · simp at h
    · split at h
      · simp at h
      · cases hl : chunkTextLoop text size overlap 0 fuel with
        | none => rw [hl] at h; simp at h
        | some l =>
          rw [hl] at h
          have h1 : Except.ok (ε := String) l = Except.ok out := Option.some.inj h
          have h2 : l = out := by injection h1
          exact chunkTextLoop_members text size overlap fuel 0 out (h2 ▸ hl) c hc
  · exact genChunks_eq_nil_iff

/-- Witness for `C5_amended_trimming` at a concrete input. -/
theorem C5_witness : pyStrip "A" = "A" ∧ "A" ≠ "" :=
  C5_amended_trimming.1 " A " 2 0 5 ["A"] rfl "A" (by decide)

/-- Claim C7: a call whose service fails every time is retried exactly 5
times after the first failure (6 attempts in total), each retry preceded
by the backoff delay `min(cap, base * 2 ** attempt)` for attempts 1…5,
and then the last underlying error propagates; a call that succeeds on
0-based attempt `k ≤ 5` returns that result after exactly the `k`
backoffs of the preceding failures, with no further retries.
`_upsert_vectors` runs the identical retry skeleton as `_embed_batch`. -/
theorem C7_retry_policy :
    (∀ (ε α : Type) (oracle : Nat → Except ε α) (e : Nat → ε),
        (∀ i, i ≤ 5 → oracle i = Except.error (e i)) →
        embedBatch oracle
          = (Except.error (e 5),
             [sleepBackoff 1, sleepBackoff 2, sleepBackoff 3,
              sleepBackoff 4, sleepBackoff 5]))
    ∧ (∀ (ε α : Type) (oracle : Nat → Except ε α) (k : Nat) (a : α),
        k ≤ 5 →
        (∀ i, i < k → ∃ err, oracle i = Except.error err) →
        oracle k = Except.ok a →
        embedBatch oracle = (Except.ok a, (List.range' 1 k).map sleepBackoff))
    ∧ (∀ (ε α : Type) (oracle : Nat → Except ε α),
        upsertVectors oracle = embedBatch oracle)
    ∧ (∀ n : Nat, sleepBackoff n = min 6 (2 / 5 * 2 ^ n)) := by
  refine ⟨fun ε α oracle e h => ?_, fun ε α oracle k a hk h hok => ?_,
    fun ε α oracle => rfl, fun n => rfl⟩
  · rw [embedBatch, retryFrom_fail oracle e 5 0 (by omega) (fun i _ hi => h i hi)]
    rfl
  · rw [embedBatch, retryFrom_ok oracle a k 0 k (by omega) hk
      (fun i _ hik => h i hik) hok]
    simp

/-- Witness for `C7_retry_policy`: an always-failing service and a
service succeeding on the third call. -/
theorem C7_witness :
    embedBatch (fun i => (Except.error i : Except Nat Nat))
      = (Except.error 5,
         [sleepBackoff 1, sleepBackoff 2, sleepBackoff 3,
          sleepBackoff 4, sleepBackoff 5])
    ∧ embedBatch (fun i => if i < 2 then Except.error i else (Except.ok 42 : Except Nat Nat))
      = (Except.ok 42, (List.range' 1 2).map sleepBackoff) :=
  ⟨C7_retry_policy.1 Nat Nat _ (fun i => i) (fun _ _ => rfl),
   C7_retry_policy.2.1 Nat Nat _ 2 42 (by omega)
     (fun i hi => ⟨i, by simp [hi]⟩) (by simp)⟩

/-- Claim C8: for every input of length `N` and every `batch_size B > 0`,
`batched` yields exactly `⌈N / B⌉` groups, each non-empty and of size at
most `B`, all of size exactly `B` except possibly the last, flattening the
groups in order reproduces the input, and an empty input yields no
groups. -/
theorem C8_batcher_properties (α : Type) (l : List α) (B : Nat) (hB : 0 < B) :
    (batched l B).length = (l.length + B - 1) / B
    ∧ (batched l B).flatten = l
    ∧ (∀ g ∈ batched l B, g ≠ [] ∧ g.length ≤ B)
    ∧ (∀ g ∈ (batched l B).dropLast, g.length = B)
    ∧ (l = [] → batched l B = []) :=
  ⟨batched_length B hB l.length l (Nat.le_refl _),
   batched_flatten B hB l.length l (Nat.le_refl _),
   batched_mem B hB l.length l (Nat.le_refl _),
   batched_dropLast B hB l.length l (Nat.le_refl _),
   fun h => by subst h; rfl⟩

/-- Witness for `C8_batcher_properties`: the spec's batching scenario
`items = [1..7]`, `batch_size = 3`. -/
theorem C8_witness :
    0 < 3
    ∧ ((batched [1, 2, 3, 4, 5, 6, 7] 3).length = (7 + 3 - 1) / 3
      ∧ (batched [1, 2, 3, 4, 5, 6, 7] 3).flatten = [1, 2, 3, 4, 5, 6, 7]
      ∧ (∀ g ∈ batched [1, 2, 3, 4, 5, 6, 7] 3, g ≠ [] ∧ g.length ≤ 3)
      ∧ (∀ g ∈ (batched [1, 2, 3, 4, 5, 6, 7] 3).dropLast, g.length = 3)
      ∧ ([1, 2, 3, 4, 5, 6, 7] = ([] : List Nat) → batched [1, 2, 3, 4, 5, 6, 7] 3 = [])) := by
  constructor
  · decide
  · have h := C8_batcher_properties Nat [1, 2, 3, 4, 5, 6, 7] 3 (by decide)
    simpa using h
